import Mathlib

/-!
Verification of the ipld-eth-state-snapshot trie-walker core.

The definitions below are shallow embeddings of the Go source:
pkg/types/node_type.go (node classification), pkg/snapshot/service.go
(path filter, walker, coordinator control flow, leaf-key derivation) and
pkg/snapshot/publisher.go (batched transaction rotation).  Byte strings
are modelled as List Nat (each element a byte value), nibble paths as
List Nat (each element a nibble 0..15, with 16 as the terminator symbol).
-/

namespace EthSnapshot

/-! ### Node classification (pkg/types/node_type.go) -/

/-- nodeType from pkg/types/node_type.go: kinds of trie nodes. -/
inductive nodeType where
  | Branch
  | Extension
  | Leaf
  | Removed
  | Unknown
deriving Repr, DecidableEq

/-- CheckKeyType from pkg/types/node_type.go.  The input is the RLP-decoded
element list of a trie node, each element a byte string.  The Go function
returns a pair of a nodeType and an error (modelled as Option String);
indexing the first byte of an empty first element would panic in Go, which
is modelled as none. -/
def CheckKeyType (elements : List (List Nat)) : Option (nodeType × Option String) :=
  if 2 < elements.length then some (nodeType.Branch, none)
  else if elements.length < 2 then
    some (nodeType.Unknown, some "node cannot be less than two elements in length")
  else
    match elements with
    | (b :: _) :: _ =>
      if b / 16 = 0 then some (nodeType.Extension, none)
      else if b / 16 = 1 then some (nodeType.Extension, none)
      else if b / 16 = 2 then some (nodeType.Leaf, none)
      else if b / 16 = 3 then some (nodeType.Leaf, none)
      else some (nodeType.Unknown, some "unknown hex prefix")
    | _ => none

/-! ### Path filter (pkg/snapshot/service.go, validPath) -/

/-- Model of bytes.HasPrefix from the Go standard library, as used by
validPath: hasPre p s is true when p is a prefix of s. -/
def hasPre : List Nat → List Nat → Bool
  | [], _ => true
  | _ :: _, [] => false
  | a :: as, b :: bs => a == b && hasPre as bs

/-- validPath from pkg/snapshot/service.go lines 207-214: true when some
seeking path has the current path as a prefix. -/
def validPath (currentPath : List Nat) (seekingPaths : List (List Nat)) : Bool :=
  seekingPaths.any fun seekingPath => hasPre currentPath seekingPath

/-- The watchingAddresses flag set in CreateSnapshot (service.go line 90):
len(paths) > 0. -/
def watchingAddresses (paths : List (List Nat)) : Bool :=
  decide (0 < paths.length)

/-- The skip guard of the walker loops (service.go lines 248 and 287):
a node is skipped when watching is on and its path is not valid. -/
def skipNode (watching : Bool) (path : List Nat) (W : List (List Nat)) : Bool :=
  watching && !(validPath path W)

/-! ### Trie model and the walker's emission set (service.go lines 216-304)

A Merkle-Patricia trie node is a leaf (with a compact-encoded key part),
an extension (key part plus one child), or a branch.  Branch children are
encoded as a chain of branchCons cells, each holding the child's nibble.
Value ("pseudo-leaf") nodes are skipped by resolveNode and so do not
appear in the model. -/

inductive MPT where
  | leaf (pp : List Nat)
  | ext (pp : List Nat) (child : MPT)
  | branchNil
  | branchCons (i : Nat) (child : MPT) (rest : MPT)
deriving Repr, DecidableEq

/-- All node paths strictly below a node sitting at path p: for an
extension the single child at p ++ pp, for a branch each child at
p ++ [i], recursively.  This is the set of reachable state-node paths
apart from the root itself. -/
def allPaths : MPT → List Nat → List (List Nat)
  | .leaf _, _ => []
  | .ext pp c, p => (p ++ pp) :: allPaths c (p ++ pp)
  | .branchNil, _ => []
  | .branchCons i c rest, p =>
      ((p ++ [i]) :: allPaths c (p ++ [i])) ++ allPaths rest p

/-- The paths emitted below a node at path p by the walker
(createSnapshot's loop and createSubTrieSnapshot, service.go lines
243-262 and 280-301): each child node is checked against the watched
filter; a filtered-out child is skipped together with its whole subtree
(the loop continues with descend = false). -/
def subtrieEmit (watching : Bool) (W : List (List Nat)) : MPT → List Nat → List (List Nat)
  | .leaf _, _ => []
  | .ext pp c, p =>
      if watching && !(validPath (p ++ pp) W) then []
      else (p ++ pp) :: subtrieEmit watching W c (p ++ pp)
  | .branchNil, _ => []
  | .branchCons i c rest, p =>
      (if watching && !(validPath (p ++ [i]) W) then []
       else (p ++ [i]) :: subtrieEmit watching W c (p ++ [i]))
      ++ subtrieEmit watching W rest p

/-- The full emission set of one walk from the trie root: the root node at
the empty path is snapshotted unconditionally (service.go lines 227-234),
then the levels below are walked with the filter. -/
def stateEmit (W : List (List Nat)) (t : MPT) : List (List Nat) :=
  [] :: subtrieEmit (watchingAddresses W) W t []

/-- All reachable state-node paths of the trie, root included. -/
def statePaths (t : MPT) : List (List Nat) :=
  [] :: allPaths t []

/-! ### Hex/compact path encoding (go-ethereum trie encoding helpers,
modelled from the go-ethereum library source used by service.go) -/

/-- keybytesToHex from go-ethereum trie/encoding.go: split each byte into
two nibbles and append the terminator 16. -/
def keybytesToHex : List Nat → List Nat
  | [] => [16]
  | b :: rest => b / 16 :: b % 16 :: keybytesToHex rest

/-- hasTerm from go-ethereum trie/encoding.go: the path ends in the
terminator 16. -/
def hasTerm (hex : List Nat) : Bool :=
  hex.getLast? == some 16

/-- decodeNibbles from go-ethereum trie/encoding.go: fold nibble pairs
back into bytes. -/
def nibblesToBytes : List Nat → List Nat
  | n1 :: n2 :: rest => (Nat.lor ((n1 <<< 4) % 256) n2) :: nibblesToBytes rest
  | _ => []

/-- hexToCompact from go-ethereum trie/encoding.go. -/
def HexToCompact (hex : List Nat) : List Nat :=
  let t : Nat := if hasTerm hex then 1 else 0
  let hex2 := if hasTerm hex then hex.dropLast else hex
  if hex2.length % 2 = 1 then
    (Nat.lor (Nat.lor ((t <<< 5) % 256) ((1 <<< 4) % 256)) (hex2.headD 0))
      :: nibblesToBytes hex2.tail
  else
    ((t <<< 5) % 256) :: nibblesToBytes hex2

/-- compactToHex from go-ethereum trie/encoding.go. -/
def CompactToHex (compact : List Nat) : List Nat :=
  match compact with
  | [] => []
  | _ :: _ =>
    let base := keybytesToHex compact
    let base2 := if base.headD 0 < 2 then base.dropLast else base
    let chop := 2 - Nat.land (base2.headD 0) 1
    base2.drop chop

/-- common.BytesToHash from go-ethereum: keep the last 32 bytes and
left-pad with zeros to 32 bytes. -/
def BytesToHash (b : List Nat) : List Nat :=
  let b2 := if 32 < b.length then b.drop (b.length - 32) else b
  List.replicate (32 - b2.length) 0 ++ b2

/-- The leaf-key computation of the state walker, service.go lines
329-333: the node path is extended by the decoded key part, re-encoded
compactly, the flag byte dropped, and the rest folded into a hash. -/
def stateLeafKey (nodePath e0 : List Nat) : List Nat :=
  let pp := CompactToHex e0
  let valueNodePath := nodePath ++ pp
  let encodedPath := HexToCompact valueNodePath
  let leafKey := encodedPath.drop 1
  BytesToHash leafKey

/-- The leaf-key computation of the storage walker, service.go lines
430-434 (textually the same computation as the state case). -/
def storageLeafKey (nodePath e0 : List Nat) : List Nat :=
  let pp := CompactToHex e0
  let valueNodePath := nodePath ++ pp
  let encodedPath := HexToCompact valueNodePath
  let leafKey := encodedPath.drop 1
  BytesToHash leafKey

/-- Modelled from the spec: leaf_key(node_path, partial_path_compact) of
section 4.1.  hex_path = node_path ++ compact_to_hex(partial_path_compact),
compact = hex_to_compact(hex_path), and the key is compact[1:]
zero-padded/truncated into a 32-byte hash. -/
def leaf_key (node_path pp_compact : List Nat) : List Nat :=
  let hex_path := node_path ++ CompactToHex pp_compact
  let compact := HexToCompact hex_path
  BytesToHash (compact.drop 1)

/-! ### Batched publisher (pkg/snapshot/publisher.go) -/

/-- The publisher state visible to PrepareTxForBatch: the running batch
counter, the list of committed transaction handles, and the handle the
database would hand out for the next opened transaction. -/
structure PubState where
  currBatchSize : Nat
  committed : List Nat
  nextTx : Nat
deriving Repr, DecidableEq

/-- PrepareTxForBatch from publisher.go lines 183-200: when the batch
counter has reached maxBatchSize, commit the given transaction, open a
new one, reset the counter, and return the new handle; otherwise return
the given handle and state unchanged. -/
def PrepareTxForBatch (p : PubState) (tx : Nat) (maxBatchSize : Nat) : PubState × Nat :=
  if maxBatchSize ≤ p.currBatchSize then
    ({ currBatchSize := 0, committed := p.committed ++ [tx], nextTx := p.nextTx + 1 },
      p.nextTx)
  else (p, tx)

/-! ### Code publication on an account leaf (service.go lines 339-351) -/

/-- Keccak256 of the empty byte string, the emptyCodeHash constant of
service.go line 40. -/
def emptyCodeHash : List Nat :=
  [0xc5, 0xd2, 0x46, 0x01, 0x86, 0xf7, 0x23, 0x3c,
   0x92, 0x7e, 0x7d, 0xb2, 0xdc, 0xc7, 0x03, 0xc0,
   0xe5, 0x00, 0xb6, 0x53, 0xca, 0x82, 0x27, 0x3b,
   0x7b, 0xfa, 0xd8, 0x04, 0x5d, 0x85, 0xa4, 0x70]

/-- The code-publication step of createNodeSnapshot for an account leaf
(service.go lines 339-351).  codeDB models rawdb.ReadCode: it returns the
stored code bytes, the empty list standing for a missing entry.  The
result is the list of published (code hash, code bytes) blobs, or the
fatal error of the walk. -/
def publishLeafCode (codeDB : List Nat → List Nat) (codeHash : List Nat) :
    Except String (List (List Nat × List Nat)) :=
  if codeHash ≠ emptyCodeHash then
    let codeBytes := codeDB codeHash
    if codeBytes.length = 0 then Except.error "missing code"
    else Except.ok [(codeHash, codeBytes)]
  else Except.ok []

/-! ### Coordinator control flow (service.go lines 116-167) -/

/-- The possible continuations of CreateSnapshot after the iterators are
obtained. -/
inductive SnapOutcome where
  | errorOut (msg : String)
  | panicIndex
  | asyncRun (n : Nat)
  | singleRun (iterId : Nat)
deriving Repr, DecidableEq

/-- The observable result of the CreateSnapshot control flow: which
continuation runs, and whether the deferred haltAndDump cleanup (the only
code that rewrites or removes the recovery file) was registered before
returning. -/
structure CreateResult where
  outcome : SnapOutcome
  haltDumpRegistered : Bool
deriving Repr, DecidableEq

/-- The dispatch at service.go lines 151-155: with a non-empty iterator
list, createSnapshotAsync runs over all iterators; otherwise the code
indexes iters[0], which is out of range for the empty list (a Go panic,
modelled by the none case of the lookup). -/
def dispatchIters (iters : List Nat) : CreateResult :=
  if 0 < iters.length then
    { outcome := SnapOutcome.asyncRun iters.length, haltDumpRegistered := true }
  else
    match iters[0]? with
    | some i => { outcome := SnapOutcome.singleRun i, haltDumpRegistered := true }
    | none => { outcome := SnapOutcome.panicIndex, haltDumpRegistered := true }

/-- SubtrieIterators of the partitioner: one iterator handle per worker. -/
def subtrieIterators (workers : Nat) : List Nat :=
  List.range workers

/-- The CreateSnapshot control flow from the restore attempt onwards
(service.go lines 116-156).  restored is the result of tracker.restore:
none when there is no recovery file, some iters for the restored
iterators.  The worker-count check (lines 124-131) runs before the
deferred haltAndDump registration (lines 144-149); on the non-restore
path the iterators are partitioned (workers > 1) or a single whole-trie
iterator is used. -/
def createSnapshotFlow (restored : Option (List Nat)) (workers : Nat) : CreateResult :=
  match restored with
  | some iters =>
      if workers < iters.length then
        { outcome := SnapOutcome.errorOut
            "number of recovered workers is greater than number configured",
          haltDumpRegistered := false }
      else dispatchIters iters
  | none =>
      let iters := if 1 < workers then subtrieIterators workers else [0]
      dispatchIters iters

/-! ### CreateLatestSnapshot (service.go lines 159-167) -/

/-- SnapshotParams from service.go lines 79-83 (the watched-address map
modelled as a list of addresses, each a byte string). -/
structure SnapshotParams where
  WatchedAddresses : List (List Nat)
  Height : Nat
  Workers : Nat
deriving Repr, DecidableEq

/-- CreateLatestSnapshot from service.go lines 159-167: read the head
header height (none models a failed lookup) and call CreateSnapshot with
the parameters built at line 166.  The ok payload is the SnapshotParams
value passed on. -/
def CreateLatestSnapshot (headHeight : Option Nat) (workers : Nat)
    (watchedAddresses : List (List Nat)) : Except String SnapshotParams :=
  match headHeight with
  | none => Except.error "unable to read header height for header hash"
  | some h =>
      Except.ok { Height := h, Workers := workers, WatchedAddresses := watchedAddresses }

/-! ### Helper lemmas -/

theorem hasPre_iff (p s : List Nat) : hasPre p s = true ↔ p <+: s := by
  induction p generalizing s with
  | nil => simp [hasPre]
  | cons a as ih =>
    cases s with
    | nil => simp [hasPre]
    | cons b bs =>
      simp [hasPre, ih, List.cons_prefix_cons]

theorem validPath_iff_exists (p : List Nat) (W : List (List Nat)) :
    validPath p W = true ↔ ∃ w ∈ W, p <+: w := by
  simp [validPath, List.any_eq_true, hasPre_iff]

theorem validPath_mono (W : List (List Nat)) {p q : List Nat}
    (hpq : p <+: q) (h : validPath q W = true) : validPath p W = true := by
  rw [validPath_iff_exists] at h ⊢
  obtain ⟨w, hwW, hqw⟩ := h
  exact ⟨w, hwW, hpq.trans hqw⟩

theorem allPaths_extends (t : MPT) (p P : List Nat) (h : P ∈ allPaths t p) :
    p <+: P := by
  induction t generalizing p with
  | leaf pp => simp [allPaths] at h
  | ext pp c ih =>
    rcases List.mem_cons.mp h with h0 | hc
    · exact h0 ▸ List.prefix_append p pp
    · exact List.IsPrefix.trans (List.prefix_append p pp) (ih (p ++ pp) hc)
  | branchNil => simp [allPaths] at h
  | branchCons i c rest ihc ihr =>
    rcases List.mem_append.mp h with hl | hr
    · rcases List.mem_cons.mp hl with h0 | hc
      · exact h0 ▸ List.prefix_append p [i]
      · exact List.IsPrefix.trans (List.prefix_append p [i]) (ihc (p ++ [i]) hc)
    · exact ihr p hr

theorem subtrieEmit_false (W : List (List Nat)) (t : MPT) (p : List Nat) :
    subtrieEmit false W t p = allPaths t p := by
  induction t generalizing p with
  | leaf pp => simp [subtrieEmit, allPaths]
  | ext pp c ih => simp [subtrieEmit, allPaths, ih]
  | branchNil => simp [subtrieEmit, allPaths]
  | branchCons i c rest ihc ihr => simp [subtrieEmit, allPaths, ihc, ihr]

theorem mem_subtrieEmit (W : List (List Nat)) (t : MPT) (p P : List Nat) :
    P ∈ subtrieEmit true W t p ↔ (P ∈ allPaths t p ∧ validPath P W = true) := by
  induction t generalizing p with
  | leaf pp => simp [subtrieEmit, allPaths]
  | ext pp c ih =>
    cases hv : validPath (p ++ pp) W with
    | false =>
      simp [subtrieEmit, allPaths, hv]
      rintro (h0 | hc)
      · exact h0 ▸ hv
      · cases hvP : validPath P W with
        | false => rfl
        | true =>
          exact absurd (validPath_mono W (allPaths_extends c (p ++ pp) P hc) hvP)
            (by simp [hv])
    | true =>
      simp [subtrieEmit, allPaths, hv, ih]
      constructor
      · rintro (h0 | ⟨hA, hvP⟩)
        · exact ⟨Or.inl h0, h0 ▸ hv⟩
        · exact ⟨Or.inr hA, hvP⟩
      · rintro ⟨h0 | hA, hvP⟩
        · exact Or.inl h0
        · exact Or.inr ⟨hA, hvP⟩
  | branchNil => simp [subtrieEmit, allPaths]
  | branchCons i c rest ihc ihr =>
    cases hv : validPath (p ++ [i]) W with
    | false =>
      simp [subtrieEmit, allPaths, hv, ihr]
      intro hvP
      constructor
      · exact fun hr => Or.inr (Or.inr hr)
      · rintro (h0 | hc | hr)
        · exact absurd (h0 ▸ hvP) (by simp [hv])
        · exact absurd (validPath_mono W (allPaths_extends c (p ++ [i]) P hc) hvP)
            (by simp [hv])
        · exact hr
    | true =>
      simp [subtrieEmit, allPaths, hv, ihc, ihr]
      constructor
      · rintro (h0 | ⟨hA, hvP⟩ | ⟨hB, hvP⟩)
        · exact ⟨Or.inl h0, h0 ▸ hv⟩
        · exact ⟨Or.inr (Or.inl hA), hvP⟩
        · exact ⟨Or.inr (Or.inr hB), hvP⟩
      · rintro ⟨h0 | hA | hB, hvP⟩
        · exact Or.inl h0
        · exact Or.inr (Or.inl ⟨hA, hvP⟩)
        · exact Or.inr (Or.inr ⟨hB, hvP⟩)

theorem keybytesToHex_length (h : List Nat) :
    (keybytesToHex h).length = 2 * h.length + 1 := by
  induction h with
  | nil => rfl
  | cons b rest ih => simp [keybytesToHex, ih]; omega

/-! ### Claim theorems -/

/-- C1: with a non-empty watched set W of full hashed-address key paths,
the walker emits a state-node record at a path P exactly when P is
reachable and some watched path has P as a prefix or P has some watched
path as a prefix (the latter never occurs inside the state trie, whose
node paths are at most 64 nibbles while watched paths have 65); with an
empty watched set every reachable state node is emitted. -/
theorem stateEmit_watched_iff (W : List (List Nat)) (t : MPT) (P : List Nat)
    (hW : ∀ w ∈ W, ∃ h, h.length = 32 ∧ w = keybytesToHex h)
    (hdepth : ∀ Q ∈ allPaths t ([] : List Nat), Q.length ≤ 64) :
    (W ≠ [] →
      (P ∈ stateEmit W t ↔ (P ∈ statePaths t ∧ ∃ w ∈ W, (P <+: w ∨ w <+: P)))) ∧
    (W = [] → (P ∈ stateEmit W t ↔ P ∈ statePaths t)) := by
  constructor
  · intro hne
    obtain ⟨w0, hw0⟩ := List.exists_mem_of_ne_nil W hne
    have hwatch : watchingAddresses W = true := by
      simp only [watchingAddresses, decide_eq_true_eq]
      exact List.length_pos.mpr hne
    constructor
    · intro hmem
      simp only [stateEmit, hwatch, List.mem_cons] at hmem
      rcases hmem with h0 | hsub
      · subst h0
        exact ⟨List.mem_cons_self _ _, ⟨w0, hw0, Or.inl List.nil_prefix⟩⟩
      · obtain ⟨hall, hvp⟩ := (mem_subtrieEmit W t [] P).mp hsub
        obtain ⟨w, hwW, hpw⟩ := (validPath_iff_exists P W).mp hvp
        exact ⟨List.mem_cons_of_mem _ hall, ⟨w, hwW, Or.inl hpw⟩⟩
    · rintro ⟨hmem, w, hwW, hor⟩
      simp only [stateEmit, hwatch, List.mem_cons]
      rcases List.mem_cons.mp hmem with h0 | hall
      · exact Or.inl h0
      · refine Or.inr ((mem_subtrieEmit W t [] P).mpr
          ⟨hall, (validPath_iff_exists P W).mpr ⟨w, hwW, ?_⟩⟩)
        rcases hor with hpw | hwp
        · exact hpw
        · exfalso
          obtain ⟨h32, hlen, hwk⟩ := hW w hwW
          have hwlen : w.length = 65 := by rw [hwk, keybytesToHex_length, hlen]
          have hPlen : P.length ≤ 64 := hdepth P hall
          have hle := hwp.length_le
          omega
  · intro he
    subst he
    simp only [stateEmit, statePaths, watchingAddresses]
    rw [show (decide (0 < ([] : List (List Nat)).length)) = false from rfl,
      subtrieEmit_false]

/-- Witness for C1 at a one-leaf trie and a single watched path. -/
theorem stateEmit_watched_iff_witness :
    ([] ∈ stateEmit [keybytesToHex (List.replicate 32 0)] (MPT.leaf [2, 0]) ↔
      ([] ∈ statePaths (MPT.leaf [2, 0]) ∧
        ∃ w ∈ [keybytesToHex (List.replicate 32 0)],
          (([] : List Nat) <+: w ∨ w <+: ([] : List Nat)))) :=
  (stateEmit_watched_iff [keybytesToHex (List.replicate 32 0)] (MPT.leaf [2, 0]) []
    (by intro w hw
        rw [List.mem_singleton] at hw
        exact ⟨List.replicate 32 0, by simp, hw⟩)
    (by intro Q hQ; simp [allPaths] at hQ)).1 (by simp)

/-- C2: CheckKeyType classifies an RLP element list as Branch when longer
than two elements, as Extension or Leaf by the high nibble of the first
byte when exactly two elements, and returns an Unknown error for fewer
than two elements or a high nibble above 3. -/
theorem CheckKeyType_spec (es : List (List Nat)) :
    (2 < es.length → CheckKeyType es = some (nodeType.Branch, none)) ∧
    (es.length < 2 →
      CheckKeyType es =
        some (nodeType.Unknown, some "node cannot be less than two elements in length")) ∧
    (∀ b r v, es = [b :: r, v] →
      ((b / 16 = 0 ∨ b / 16 = 1) → CheckKeyType es = some (nodeType.Extension, none)) ∧
      ((b / 16 = 2 ∨ b / 16 = 3) → CheckKeyType es = some (nodeType.Leaf, none)) ∧
      (3 < b / 16 →
        CheckKeyType es = some (nodeType.Unknown, some "unknown hex prefix"))) := by
  refine ⟨?_, ?_, ?_⟩
  · intro h
    simp [CheckKeyType, h]
  · intro h
    have h2 : ¬ 2 < es.length := by omega
    simp [CheckKeyType, h, h2]
  · rintro b r v rfl
    refine ⟨?_, ?_, ?_⟩
    · rintro (hb | hb) <;> simp [CheckKeyType, hb]
    · rintro (hb | hb) <;> simp [CheckKeyType, hb]
    · intro hb
      have h0 : b / 16 ≠ 0 := by omega
      have h1 : b / 16 ≠ 1 := by omega
      have h2 : b / 16 ≠ 2 := by omega
      have h3 : b / 16 ≠ 3 := by omega
      simp [CheckKeyType, h0, h1, h2, h3]

/-- Witness for C2 at a three-element list. -/
theorem CheckKeyType_spec_witness :
    CheckKeyType [[], [], []] = some (nodeType.Branch, none) :=
  (CheckKeyType_spec [[], [], []]).1 (by decide)

/-- C3: evaluation of the coordinator dispatch at the failing input of a
single iterator (workers = 1): the source condition len(iters) > 0 sends
the one iterator to createSnapshotAsync, spawning a worker goroutine,
instead of running the single walker in the current thread as the claim
states. -/
theorem dispatch_single_iterator_async :
    (dispatchIters [7]).outcome = SnapOutcome.asyncRun 1 ∧
    (createSnapshotFlow none 1).outcome = SnapOutcome.asyncRun 1 :=
  ⟨rfl, rfl⟩

/-- C4: for every leaf, state or storage alike, the published 32-byte leaf
key equals compact[1:] for compact = hex_to_compact(node_path ++
compact_to_hex(partial_path_compact)), zero-padded/truncated into a
32-byte hash, which is exactly the leaf_key operation of the spec. -/
theorem leafKey_matches_spec (p e0 : List Nat) :
    stateLeafKey p e0 = leaf_key p e0 ∧ storageLeafKey p e0 = leaf_key p e0 :=
  ⟨rfl, rfl⟩

/-- C5: PrepareTxForBatch commits the transaction, opens a new one, resets
the batch counter to 0 and returns the new handle when the batch counter
has reached maxBatchSize; otherwise it returns the given transaction with
the publisher state unchanged. -/
theorem PrepareTxForBatch_spec (p : PubState) (tx maxB : Nat) :
    (maxB ≤ p.currBatchSize →
      PrepareTxForBatch p tx maxB =
        ({ currBatchSize := 0, committed := p.committed ++ [tx],
           nextTx := p.nextTx + 1 }, p.nextTx)) ∧
    (p.currBatchSize < maxB → PrepareTxForBatch p tx maxB = (p, tx)) := by
  constructor
  · intro h
    simp [PrepareTxForBatch, h]
  · intro h
    have h2 : ¬ maxB ≤ p.currBatchSize := by omega
    simp [PrepareTxForBatch, h2]

/-- Witness for C5 at a concrete publisher state that crossed the
threshold. -/
theorem PrepareTxForBatch_spec_witness :
    PrepareTxForBatch { currBatchSize := 5, committed := [], nextTx := 1 } 0 3 =
      ({ currBatchSize := 0, committed := [0], nextTx := 2 }, 1) :=
  (PrepareTxForBatch_spec { currBatchSize := 5, committed := [], nextTx := 1 } 0 3).1
    (by decide)

/-- C6: on an account leaf, a code hash different from Keccak256 of the
empty string has its code bytes read from the archive DB and published,
empty or missing code bytes being a fatal error, while the empty-code
hash publishes no code blob. -/
theorem publishLeafCode_spec (codeDB : List Nat → List Nat) (h : List Nat) :
    (h ≠ emptyCodeHash → codeDB h ≠ [] →
      publishLeafCode codeDB h = Except.ok [(h, codeDB h)]) ∧
    (h ≠ emptyCodeHash → codeDB h = [] →
      publishLeafCode codeDB h = Except.error "missing code") ∧
    (h = emptyCodeHash → publishLeafCode codeDB h = Except.ok []) := by
  refine ⟨?_, ?_, ?_⟩
  · intro hne hcode
    have hlen : ¬ (codeDB h).length = 0 := by simpa using hcode
    simp [publishLeafCode, hne, hlen]
  · intro hne hcode
    simp [publishLeafCode, hne, hcode]
  · intro he
    simp [publishLeafCode, he]

/-- Witness for C6: a one-entry code database and a non-empty code hash. -/
theorem publishLeafCode_spec_witness :
    publishLeafCode (fun _ => [1]) [0] = Except.ok [([0], [1])] :=
  (publishLeafCode_spec (fun _ => [1]) [0]).1 (by decide) (by decide)

/-- C7: for a non-empty watched set, validPath holds exactly when some
watched path has the current path as a prefix; with an empty watched set
the walker guard never skips a node, so every path is treated as valid. -/
theorem validPath_spec (p : List Nat) (W : List (List Nat)) (hW : W ≠ []) :
    (validPath p W = true ↔ ∃ w ∈ W, p <+: w) ∧
    (∀ q : List Nat, skipNode (watchingAddresses []) q [] = false) :=
  ⟨validPath_iff_exists p W, fun _ => rfl⟩

/-- Witness for C7 at a singleton watched set. -/
theorem validPath_spec_witness :
    ((validPath [] [[1]] = true ↔ ∃ w ∈ [[1]], ([] : List Nat) <+: w) ∧
      (∀ q : List Nat, skipNode (watchingAddresses []) q [] = false)) :=
  validPath_spec [] [[1]] (by decide)

/-- C8: when the recovery file restores more iterators than the configured
worker count, CreateSnapshot returns a configuration error before any
walking starts, and the deferred haltAndDump cleanup, the only writer of
the recovery file, has not been registered, so the file is unchanged. -/
theorem createSnapshotFlow_restore_overflow (iters : List Nat) (workers : Nat)
    (h : workers < iters.length) :
    (∃ msg, (createSnapshotFlow (some iters) workers).outcome =
      SnapOutcome.errorOut msg) ∧
    (createSnapshotFlow (some iters) workers).haltDumpRegistered = false := by
  refine ⟨⟨"number of recovered workers is greater than number configured", ?_⟩, ?_⟩ <;>
    simp [createSnapshotFlow, h]

/-- Witness for C8: three restored iterators, two configured workers. -/
theorem createSnapshotFlow_restore_overflow_witness :
    ((∃ msg, (createSnapshotFlow (some [0, 1, 2]) 2).outcome =
        SnapOutcome.errorOut msg) ∧
      (createSnapshotFlow (some [0, 1, 2]) 2).haltDumpRegistered = false) :=
  createSnapshotFlow_restore_overflow [0, 1, 2] 2 (by decide)

/-- C9: CreateLatestSnapshot forwards the watched addresses, together with
the head height it read and the worker count, in the SnapshotParams value
it passes to CreateSnapshot, so the watched-address filter applies as for
a fixed-height snapshot. -/
theorem CreateLatestSnapshot_forwards (h workers : Nat) (W : List (List Nat)) :
    CreateLatestSnapshot (some h) workers W =
      Except.ok { WatchedAddresses := W, Height := h, Workers := workers } :=
  rfl

/-- C10: the non-async branch of the dispatch is reachable only with an
empty iterator list, where indexing iters[0] is out of range (a fault)
instead of an error return or a trivial success; every non-empty iterator
list takes the async branch, including the restored-empty-list case. -/
theorem dispatchIters_empty_faults (iters : List Nat) (workers : Nat) :
    (iters = [] → (dispatchIters iters).outcome = SnapOutcome.panicIndex) ∧
    (iters ≠ [] → (dispatchIters iters).outcome = SnapOutcome.asyncRun iters.length) ∧
    (createSnapshotFlow (some []) workers).outcome = SnapOutcome.panicIndex := by
  refine ⟨?_, ?_, ?_⟩
  · rintro rfl; rfl
  · intro hne
    have hlen : 0 < iters.length := List.length_pos.mpr hne
    simp [dispatchIters, hlen]
  · simp [createSnapshotFlow, dispatchIters]

/-- Witness for C10 at the empty iterator list. -/
theorem dispatchIters_empty_faults_witness :
    (dispatchIters []).outcome = SnapOutcome.panicIndex :=
  (dispatchIters_empty_faults [] 2).1 rfl

end EthSnapshot
